import Mathlib

/-!
Verification of the container lifecycle orchestrator in
`src/runDockerCompose.ts` (the `custom:docker-compose` scaffolder action).

The handler is embedded shallowly: the external world (filesystem, YAML
parser, child processes) is an `Env` of oracles, and the handler body is a
pure function from `Env` to a trace of observable effects plus an
`Except`-style outcome, mirroring the TypeScript control flow statement by
statement.  The per-line port parser (the regex
`^(\d+)\/tcp -> [^:]+:(\d+)$` applied to `docker port` output) is embedded
as an executable matcher over `List Char`.
-/

namespace DockerCompose

/-- One TCP publish binding discovered at runtime: the two regex capture
groups `containerPort` and `hostPort`, both stored as strings exactly as in
the source (`{ containerPort: match[1], hostPort: match[2] }`). -/
structure PortMapping where
  containerPort : String
  hostPort : String
deriving DecidableEq, Repr

/-- The `ports` object of the handler, in insertion order: service name to
ordered sequence of discovered mappings. -/
abbrev PortTable := List (String × List PortMapping)

/-- The value returned by the handler on success: `return { webUrl, ports }`. -/
structure OrchestrationResult where
  webUrl : String
  ports : PortTable
deriving DecidableEq, Repr

/-! ### The port-line matcher (`line.match(/^(\d+)\/tcp -> [^:]+:(\d+)$/)`) -/

/-- Maximal leading run of decimal digits (`\d+` is greedy and, being
followed by a non-digit literal, deterministic). -/
def takeDigits : List Char → List Char × List Char
  | [] => ([], [])
  | c :: cs =>
    if c.isDigit then
      let p := takeDigits cs
      (c :: p.1, p.2)
    else ([], c :: cs)

/-- Maximal leading run of non-colon characters (`[^:]+` is greedy and,
being followed by a colon literal, deterministic). -/
def takeNonColon : List Char → List Char × List Char
  | [] => ([], [])
  | c :: cs =>
    if c = ':' then ([], c :: cs)
    else
      let p := takeNonColon cs
      (c :: p.1, p.2)

/-- Strip an exact literal from the front of the input, or fail. -/
def stripLit : List Char → List Char → Option (List Char)
  | [], s => some s
  | _ :: _, [] => none
  | l :: ls, c :: cs => if c = l then stripLit ls cs else none

/-- The anchored regex `^(\d+)\/tcp -> [^:]+:(\d+)$` as a deterministic
matcher returning the two capture groups.  Every quantified piece of the
regex is followed by a character it cannot itself match, so backtracking
never changes the outcome and this functional reading is exact. -/
def matchPortLine (line : List Char) : Option (List Char × List Char) :=
  if (takeDigits line).1 = [] then none
  else
    match stripLit "/tcp -> ".data (takeDigits line).2 with
    | none => none
    | some r2 =>
      if (takeNonColon r2).1 = [] then none
      else
        match (takeNonColon r2).2 with
        | ':' :: r4 =>
          if (takeDigits r4).1 = [] then none
          else if (takeDigits r4).2 = [] then
            some ((takeDigits line).1, (takeDigits r4).1)
          else none
        | _ => none

/-- One line of `docker port` output, as handled inside the `forEach`:
whitespace-only lines fail the `if (line.trim())` guard and are skipped,
every other line is tried against the regex. -/
def lineMapping (line : List Char) : Option PortMapping :=
  if line.all (fun c => c.isWhitespace) then none
  else (matchPortLine line).map fun p => ⟨String.mk p.1, String.mk p.2⟩

/-- `output.split('\n')` on the character list. -/
def splitNl : List Char → List (List Char)
  | [] => [[]]
  | c :: cs =>
    if c = '\n' then [] :: splitNl cs
    else
      match splitNl cs with
      | [] => [[c]]
      | l :: ls => (c :: l) :: ls

/-- The whole per-service parse: split the captured stdout on newlines and
collect, in order, the mapping each accepted line yields. -/
def parseLines (cs : List Char) : List PortMapping :=
  (splitNl cs).filterMap lineMapping

/-- String-level entry point for the per-service parse of `docker port`
output. -/
def parsePortOutput (output : String) : List PortMapping :=
  parseLines output.data

/-- Joining lines with `'\n'`, the left inverse of `splitNl` used to state
order preservation over whole outputs. -/
def joinNl : List (List Char) → List Char
  | [] => []
  | [l] => l
  | l :: l2 :: ls => l ++ '\n' :: joinNl (l2 :: ls)

/-! ### Declarative reading of the line grammar (for the parser theorem) -/

/-- A non-empty all-digit character group (`(\d+)` capture). -/
def DigitGroup (l : List Char) : Prop := l ≠ [] ∧ ∀ c ∈ l, c.isDigit = true

/-- Declarative statement that a line matches
`^(\d+)\/tcp -> [^:]+:(\d+)$` with capture groups `cp` and `hp`. -/
def PortLineSpec (line cp hp : List Char) : Prop :=
  DigitGroup cp ∧ DigitGroup hp ∧
    ∃ h, h ≠ [] ∧ (∀ c ∈ h, c ≠ ':') ∧
      line = cp ++ "/tcp -> ".data ++ h ++ ':' :: hp

instance : DecidablePred DigitGroup := fun l => by
  unfold DigitGroup; infer_instance

/-! ### Diagnostic-line classification (`upProc` stdout/stderr handlers) -/

/-- Severity at which a line is handed to the injected logging sink. -/
inductive Severity where
  | info
  | warn
  | error
deriving DecidableEq, Repr

/-- One call into the logging sink: a severity and the formatted message. -/
structure LogLine where
  severity : Severity
  message : String
deriving DecidableEq, Repr

/-- JavaScript `String.prototype.includes`: `sub` occurs contiguously
somewhere in `s`. -/
def containsSub (s sub : String) : Bool :=
  s.data.tails.any fun t => sub.data.isPrefixOf t

/-- `upProc` stderr handler of the first source variant (the one with port
detection): token lines go to `logger.warn` as `DOCKER WARN:`, everything
else goes to `logger.warn` as `DOCKER ERR:`. -/
def classifyUpStderrV1 (chunk : String) : LogLine :=
  if containsSub chunk "Creating" || containsSub chunk "Created" ||
      containsSub chunk "level=warning" then
    ⟨Severity.warn, "DOCKER WARN: " ++ chunk⟩
  else
    ⟨Severity.warn, "DOCKER ERR: " ++ chunk⟩

/-- `upProc` stderr handler of the second source variant: token lines go to
`logger.warn` as `DOCKER WARN:`, everything else goes to `logger.error` as
`DOCKER ERR:`. -/
def classifyUpStderrV2 (chunk : String) : LogLine :=
  if containsSub chunk "Creating" || containsSub chunk "Created" ||
      containsSub chunk "level=warning" then
    ⟨Severity.warn, "DOCKER WARN: " ++ chunk⟩
  else
    ⟨Severity.error, "DOCKER ERR: " ++ chunk⟩

/-- `upProc` stdout handler (both variants): `logger.info` with the
`DOCKER OUT:` prefix. -/
def classifyUpStdout (chunk : String) : LogLine :=
  ⟨Severity.info, "DOCKER OUT: " ++ chunk⟩

/-! ### The handler as a pure function over an environment of oracles -/

/-- Outcome of Step 1 (`yaml.load` on the manifest inside `try`/`catch`):
the load (or the `doc.services` access) throws, or `doc.services` is falsy,
or `Object.keys(doc.services)` yields the declared service names in
manifest order. -/
inductive ParseOutcome where
  | parseFailed (err : String)
  | noServicesKey
  | servicesDecl (names : List String)
deriving DecidableEq, Repr

/-- Everything the handler observes from the outside world during one run.
`rmExitCode` models the `code` argument of each `rmProc` close event; the
source's callback `() => { ...; resolve(); }` never reads it. -/
structure Env where
  composePath : String
  composeFileExists : Bool
  parseOutcome : ParseOutcome
  rmExitCode : String → Nat
  rmStdoutChunks : String → List String
  rmStderrChunks : String → List String
  upStdoutChunks : List String
  upStderrChunks : List String
  upExitCode : Nat
  portQueryOutput : String → String
  portQueryStderrChunks : String → List String

/-- Observable effect of the handler: a logging-sink call, a child-process
spawn or resolution, or an emitted `ctx.output`. -/
inductive Effect where
  | logInfo (msg : String)
  | logWarn (msg : String)
  | logError (msg : String)
  /-- `ctx.logger.info` of `Exposed ports: ` followed by the JSON rendering
  of the table; the table itself is carried, JSON formatting is not
  modelled. -/
  | logInfoExposedPorts (tbl : PortTable)
  /-- The `readFileSync` + `yaml.load` attempt on the manifest. -/
  | parseManifest
  /-- Spawn of the `docker ps -a … | xargs -r docker rm -f` pipeline for one
  service. -/
  | spawnRemove (service : String)
  /-- `resolve()` in the close callback of that pipeline. -/
  | removeResolved (service : String)
  /-- Spawn of `docker compose -f <path> up -d --build`. -/
  | spawnUp
  /-- Spawn of the `docker ps … | xargs -r -I … docker port` pipeline for
  one service. -/
  | spawnPortQuery (service : String)
  | outputPorts (tbl : PortTable)
  | outputWebUrl (url : String)
deriving DecidableEq, Repr

/-- Whether an effect is a plain logging-sink call. -/
def Effect.isLog : Effect → Bool
  | .logInfo _ => true
  | .logWarn _ => true
  | .logError _ => true
  | .logInfoExposedPorts _ => true
  | _ => false

/-- Turn a classified line into the corresponding sink call. -/
def logEffect : LogLine → Effect
  | ⟨Severity.info, m⟩ => .logInfo m
  | ⟨Severity.warn, m⟩ => .logWarn m
  | ⟨Severity.error, m⟩ => .logError m

/-- Trace and final outcome of one handler invocation: the error case
carries the message of the thrown `Error`. -/
structure RunOutcome where
  trace : List Effect
  result : Except String OrchestrationResult
deriving Repr

/-- Step 1: effects and extracted `serviceNames` of the manifest parse. -/
def parseStep (env : Env) : List Effect × List String :=
  match env.parseOutcome with
  | .parseFailed err =>
    ([Effect.parseManifest,
      Effect.logWarn ("Failed to parse compose file: " ++ err)], [])
  | .noServicesKey => ([Effect.parseManifest], [])
  | .servicesDecl ns =>
    ([Effect.parseManifest,
      Effect.logInfo ("Detected services: " ++ String.intercalate ", " ns)], ns)

/-- The `serviceNames` array after Step 1. -/
def serviceNamesOf (env : Env) : List String := (parseStep env).2

/-- Forwarded stdout/stderr of one `rmProc` (info resp. warn channel). -/
def rmChunkTrace (env : Env) (s : String) : List Effect :=
  ((env.rmStdoutChunks s).map fun c => Effect.logInfo ("DOCKER OUT: " ++ c)) ++
    ((env.rmStderrChunks s).map fun c => Effect.logWarn ("DOCKER WARN: " ++ c))

/-- One iteration of the Step 2 removal loop: spawn, forwarded diagnostics,
the close-callback log line, and the promise resolution. -/
def removeStepTrace (env : Env) (s : String) : List Effect :=
  Effect.spawnRemove s :: rmChunkTrace env s ++
    [Effect.logInfo ("Removed any existing containers matching: " ++ s),
     Effect.removeResolved s]

/-- Step 2 over the whole service list, sequentially in manifest order. -/
def removeTrace (env : Env) : List String → List Effect
  | [] => []
  | s :: rest => removeStepTrace env s ++ removeTrace env rest

/-- Forwarded stdout/stderr of `upProc`, classified per the source's stream
handlers (first variant). -/
def upChunkTrace (env : Env) : List Effect :=
  (env.upStdoutChunks.map fun c => logEffect (classifyUpStdout c)) ++
    (env.upStderrChunks.map fun c => logEffect (classifyUpStderrV1 c))

/-- Everything the handler has done by the time the `upProc` close callback
fires: the initial path log, Step 1, Step 2, the `Starting Docker
Compose...` log, the spawn of `docker compose up -d --build`, and its
forwarded output. -/
def preUpTrace (env : Env) : List Effect :=
  Effect.logInfo ("Compose file: " ++ env.composePath) ::
    (parseStep env).1 ++ removeTrace env (serviceNamesOf env) ++
    [Effect.logInfo "Starting Docker Compose...", Effect.spawnUp] ++
    upChunkTrace env

/-- The message of the error the handler rejects with when `docker compose
up` exits non-zero. -/
def upFailMsg (env : Env) : String :=
  "docker compose up exited with code " ++ toString env.upExitCode

/-- JavaScript object assignment `ports[service] = mappings`: overwrite in
place if the key is already present, otherwise append. -/
def objSet (tbl : PortTable) (k : String) (v : List PortMapping) : PortTable :=
  if tbl.any fun p => p.1 == k then
    tbl.map fun p => if p.1 == k then (k, v) else p
  else tbl ++ [(k, v)]

/-- Step 4: the `ports` object after querying every service in order. -/
def buildPorts (env : Env) (ns : List String) : PortTable :=
  ns.foldl (fun tbl s => objSet tbl s (parsePortOutput (env.portQueryOutput s))) []

/-- Effects of one Step 4 iteration: spawn of the port-query pipeline and
its forwarded stderr (stdout is captured, not logged). -/
def portQueryTrace (env : Env) (s : String) : List Effect :=
  Effect.spawnPortQuery s ::
    (env.portQueryStderrChunks s).map fun c => Effect.logWarn ("DOCKER WARN: " ++ c)

/-- Step 4 over the whole service list, sequentially in manifest order. -/
def discoveryTrace (env : Env) : List String → List Effect
  | [] => []
  | s :: rest => portQueryTrace env s ++ discoveryTrace env rest

/-- Step 5: the `webUrl` loop over `Object.entries(ports)` with its `break`
at the first service holding at least one mapping. -/
def selectWebUrl : PortTable → String
  | [] => ""
  | (_, []) :: rest => selectWebUrl rest
  | (_, m :: _) :: _ => "http://localhost:" ++ m.hostPort

/-- The whole `async handler(ctx)` body of the first source variant as a
trace-producing function: existence guard, Step 1 parse, Step 2 removal
loop, Step 3 `docker compose up -d --build` with fatal non-zero exit,
Step 4 port discovery, Step 5 endpoint selection, outputs and return. -/
def runHandler (env : Env) : RunOutcome :=
  if env.composeFileExists then
    if env.upExitCode = 0 then
      let tbl := buildPorts env (serviceNamesOf env)
      let url := selectWebUrl tbl
      ⟨preUpTrace env ++
        [Effect.logInfo "Docker Compose executed successfully."] ++
        discoveryTrace env (serviceNamesOf env) ++
        [Effect.logInfoExposedPorts tbl,
         Effect.outputPorts tbl,
         Effect.logInfo ("Web URL detected: " ++ url),
         Effect.outputWebUrl url],
       .ok ⟨url, tbl⟩⟩
    else
      ⟨preUpTrace env ++ [Effect.logError (upFailMsg env)],
       .error (upFailMsg env)⟩
  else
    ⟨[Effect.logInfo ("Compose file: " ++ env.composePath)],
     .error ("Compose file not found: " ++ env.composePath)⟩

/-- Modelled from the spec, §4.5: the selected URL is built from the first
mapping of the first service, in declaration order, whose mapping sequence
is non-empty, and is empty when no service has a mapping.  Stated with
`List.find?` so that "scanning stops at the first hit" is explicit. -/
def specWebUrl (tbl : PortTable) : String :=
  match tbl.find? (fun p => !p.2.isEmpty) with
  | some (_, m :: _) => "http://localhost:" ++ m.hostPort
  | _ => ""

/-- Projection of a trace onto removal activity: `(true, s)` for the spawn
of service `s`'s removal pipeline, `(false, s)` for its completion. -/
def removalEvent : Effect → Option (Bool × String)
  | .spawnRemove s => some (true, s)
  | .removeResolved s => some (false, s)
  | _ => none

/-- The expected removal activity for a service list: one spawn per
service, in order, each resolved before the next spawn. -/
def removalSchedule : List String → List (Bool × String)
  | [] => []
  | s :: rest => (true, s) :: (false, s) :: removalSchedule rest

/-- A non-empty string of decimal digits (what a regex `(\d+)` capture
always is). -/
def DigitString (s : String) : Prop :=
  s.data ≠ [] ∧ ∀ c ∈ s.data, c.isDigit = true

/-- A concrete healthy environment: two services `web` and `db`, `web`
publishing container port 80 on host port 32768, everything succeeding. -/
def envA : Env where
  composePath := "/workspace/docker-compose.yml"
  composeFileExists := true
  parseOutcome := .servicesDecl ["web", "db"]
  rmExitCode := fun _ => 0
  rmStdoutChunks := fun _ => []
  rmStderrChunks := fun _ => []
  upStdoutChunks := []
  upStderrChunks := []
  upExitCode := 0
  portQueryOutput := fun s => if s = "web" then "80/tcp -> 0.0.0.0:32768\n" else ""
  portQueryStderrChunks := fun _ => []

/-- Like `envA` but the manifest path does not resolve to a file. -/
def envB : Env := { envA with composeFileExists := false }

/-- Like `envA` but `docker compose up -d --build` exits with code 2. -/
def envC : Env := { envA with upExitCode := 2 }

/-- Like `envA` but the manifest fails to parse. -/
def envD : Env :=
  { envA with parseOutcome := .parseFailed "YAMLException: bad indentation" }

example : matchPortLine "80/tcp -> 0.0.0.0:32768".data =
    some ("80".data, "32768".data) := by decide

example : matchPortLine "80/udp -> 0.0.0.0:32768".data = none := by decide

example : matchPortLine "80/tcp -> [::]:32768".data = none := by decide

example : parsePortOutput "80/tcp -> 0.0.0.0:32768\n53/udp -> 0.0.0.0:53\n443/tcp -> 0.0.0.0:444\n" =
    [⟨"80", "32768"⟩, ⟨"443", "444"⟩] := by decide

/-! ### Lemmas: the matcher against the declarative line grammar -/

theorem takeDigits_spec (l : List Char) :
    (takeDigits l).1 ++ (takeDigits l).2 = l ∧
      (∀ c ∈ (takeDigits l).1, c.isDigit = true) ∧
      (∀ c cs, (takeDigits l).2 = c :: cs → c.isDigit = false) := by
  induction l with
  | nil => exact ⟨rfl, by simp [takeDigits], by simp [takeDigits]⟩
  | cons c cs ih =>
    by_cases hc : c.isDigit
    · refine ⟨?_, ?_, ?_⟩
      · simpa [takeDigits, hc] using ih.1
      · intro x hx
        simp only [takeDigits, hc, if_pos] at hx
        rcases List.mem_cons.mp hx with rfl | hx
        · exact hc
        · exact ih.2.1 x hx
      · intro x xs hx
        simp only [takeDigits, hc, if_pos] at hx
        exact ih.2.2 x xs hx
    · refine ⟨?_, ?_, ?_⟩
      · simp [takeDigits, hc]
      · simp [takeDigits, hc]
      · intro x xs hx
        simp [takeDigits, hc] at hx
        rw [← hx.1]
        simpa using hc


theorem takeNonColon_spec (l : List Char) :
    (takeNonColon l).1 ++ (takeNonColon l).2 = l ∧
      ∀ c ∈ (takeNonColon l).1, c ≠ ':' := by
  induction l with
  | nil => exact ⟨rfl, by simp [takeNonColon]⟩
  | cons c cs ih =>
    by_cases hc : c = ':'
    · subst hc
      exact ⟨by simp [takeNonColon], by simp [takeNonColon]⟩
    · refine ⟨?_, ?_⟩
      · simpa [takeNonColon, hc] using ih.1
      · intro x hx
        simp only [takeNonColon, hc, if_neg, not_false_iff] at hx
        rcases List.mem_cons.mp hx with rfl | hx
        · exact hc
        · exact ih.2 x hx

theorem takeDigits_eq_of (d r : List Char) (hd : ∀ c ∈ d, c.isDigit = true)
    (hr : ∀ c cs, r = c :: cs → c.isDigit = false) :
    takeDigits (d ++ r) = (d, r) := by
  induction d with
  | nil =>
    cases r with
    | nil => rfl
    | cons c cs => simp [takeDigits, hr c cs rfl]
  | cons c d ih =>
    have hcd : c.isDigit = true := hd c (List.mem_cons_self c d)
    have hrec := ih fun x hx => hd x (List.mem_cons_of_mem c hx)
    simp [takeDigits, hcd, hrec]

theorem takeNonColon_eq_of (h r : List Char) (hh : ∀ c ∈ h, c ≠ ':')
    (hr : ∀ c cs, r = c :: cs → c = ':') :
    takeNonColon (h ++ r) = (h, r) := by
  induction h with
  | nil =>
    cases r with
    | nil => rfl
    | cons c cs => simp [takeNonColon, hr c cs rfl]
  | cons c d ih =>
    have hc : c ≠ ':' := hh c (List.mem_cons_self c d)
    have hrec := ih fun x hx => hh x (List.mem_cons_of_mem c hx)
    simp [takeNonColon, hc, hrec]

theorem stripLit_eq_some_iff (pat s r : List Char) :
    stripLit pat s = some r ↔ s = pat ++ r := by
  induction pat generalizing s with
  | nil => simp [stripLit, eq_comm]
  | cons l ls ih =>
    cases s with
    | nil => simp [stripLit]
    | cons c cs =>
      by_cases hc : c = l
      · subst hc
        simp [stripLit, ih]
      · simp [stripLit, hc]

theorem matchPortLine_sound {line cp hp : List Char}
    (hm : matchPortLine line = some (cp, hp)) : PortLineSpec line cp hp := by
  unfold matchPortLine at hm
  split at hm
  · exact absurd hm (by simp)
  next h1 =>
    split at hm
    · exact absurd hm (by simp)
    next r2 hs =>
      split at hm
      · exact absurd hm (by simp)
      next h3 =>
        split at hm
        next r4 heq =>
          split at hm
          · exact absurd hm (by simp)
          next h5 =>
            split at hm
            next h6 =>
              simp only [Option.some.injEq, Prod.mk.injEq] at hm
              obtain ⟨hmc, hmh⟩ := hm
              subst hmc
              subst hmh
              obtain ⟨hd1, hd2, _⟩ := takeDigits_spec line
              obtain ⟨hs1, hs2⟩ := takeNonColon_spec r2
              obtain ⟨he1, he2, _⟩ := takeDigits_spec r4
              have hr2 : (takeDigits line).2 = "/tcp -> ".data ++ r2 :=
                (stripLit_eq_some_iff _ _ _).mp hs
              rw [h6, List.append_nil] at he1
              refine ⟨⟨h1, hd2⟩, ⟨h5, he2⟩, (takeNonColon r2).1, h3, hs2, ?_⟩
              have hfin : line = (takeDigits line).1 ++
                  ("/tcp -> ".data ++ ((takeNonColon r2).1 ++ ':' :: (takeDigits r4).1)) := by
                rw [he1, ← heq, hs1, ← hr2, hd1]
              refine hfin.trans ?_
              simp [List.append_assoc]
            next h6 => exact absurd hm (by simp)
        next hne => exact absurd hm (by simp)

theorem matchPortLine_complete {line cp hp : List Char}
    (h : PortLineSpec line cp hp) : matchPortLine line = some (cp, hp) := by
  obtain ⟨⟨hcpne, hcpd⟩, ⟨hhpne, hhpd⟩, mid, hmne, hmnc, hline⟩ := h
  subst hline
  have e1 : takeDigits (cp ++ ("/tcp -> ".data ++ (mid ++ ':' :: hp))) =
      (cp, "/tcp -> ".data ++ (mid ++ ':' :: hp)) := by
    refine takeDigits_eq_of _ _ hcpd ?_
    intro c cs hc
    have hcslash : c = '/' := by
      have hh : "/tcp -> ".data ++ (mid ++ ':' :: hp) =
          '/' :: ("tcp -> ".data ++ (mid ++ ':' :: hp)) := rfl
      rw [hh] at hc
      exact ((List.cons.injEq .. ▸ hc).1).symm
    subst hcslash
    decide
  have e2 : stripLit "/tcp -> ".data ("/tcp -> ".data ++ (mid ++ ':' :: hp)) =
      some (mid ++ ':' :: hp) := (stripLit_eq_some_iff _ _ _).mpr rfl
  have e3 : takeNonColon (mid ++ ':' :: hp) = (mid, ':' :: hp) := by
    refine takeNonColon_eq_of _ _ hmnc ?_
    intro c cs hc
    exact ((List.cons.injEq .. ▸ hc).1).symm
  have e4 : takeDigits hp = (hp, []) := by
    have h0 := takeDigits_eq_of hp [] hhpd (by intro c cs hc; cases hc)
    simpa using h0
  rw [show cp ++ "/tcp -> ".data ++ mid ++ ':' :: hp =
      cp ++ ("/tcp -> ".data ++ (mid ++ ':' :: hp)) by simp [List.append_assoc]]
  unfold matchPortLine
  rw [e1]
  simp only [e2, e3, e4]
  simp [hcpne, hmne, hhpne]

theorem isDigit_isWhitespace_false {c : Char} (h : c.isDigit = true) :
    c.isWhitespace = false := by
  by_contra hw
  rw [Bool.not_eq_false] at hw
  have hd : ((c = ' ' ∨ c = '\t') ∨ c = '\r') ∨ c = '\n' := by
    simpa [Char.isWhitespace] using hw
  rcases hd with ((h1 | h1) | h1) | h1 <;> subst h1 <;> exact absurd h (by decide)

/-- The `forEach` body accepts a line and produces the mapping built from
the two captures exactly when the line matches the anchored TCP grammar. -/
theorem lineMapping_eq_some_iff {line cp hp : List Char} :
    lineMapping line = some ⟨String.mk cp, String.mk hp⟩ ↔ PortLineSpec line cp hp := by
  constructor
  · intro h
    unfold lineMapping at h
    split at h
    · exact absurd h (by simp)
    · rcases ho : matchPortLine line with _ | ⟨pa, pb⟩
      · rw [ho] at h
        exact absurd h (by simp)
      · rw [ho] at h
        simp only [Option.map_some', Option.some.injEq] at h
        have h1 : pa = cp := congrArg (fun m => m.containerPort.data) h
        have h2 : pb = hp := congrArg (fun m => m.hostPort.data) h
        rw [h1, h2] at ho
        exact matchPortLine_sound ho
  · intro h
    have hm := matchPortLine_complete h
    have hnb : line.all (fun c => c.isWhitespace) = false := by
      obtain ⟨⟨hcpne, hcpd⟩, _, mid, _, _, hline⟩ := h
      cases cp with
      | nil => exact absurd rfl hcpne
      | cons c0 cs0 =>
        apply List.all_eq_false.mpr
        refine ⟨c0, ?_, ?_⟩
        · rw [hline]
          simp
        · simp [isDigit_isWhitespace_false (hcpd c0 (List.mem_cons_self c0 cs0))]
    unfold lineMapping
    rw [hnb, hm]
    simp

/-- Splitting after appending one newline-free line and a separator peels
off exactly that line. -/
theorem splitNl_append_cons {l r : List Char} (hl : '\n' ∉ l) :
    splitNl (l ++ '\n' :: r) = l :: splitNl r := by
  induction l with
  | nil => simp [splitNl]
  | cons c cs ih =>
    have hc : c ≠ '\n' := fun h => hl (h ▸ List.mem_cons_self c cs)
    have hrec := ih fun h => hl (List.mem_cons_of_mem c h)
    simp only [List.cons_append, splitNl, hc, if_neg, not_false_iff]
    rw [show cs.append ('\n' :: r) = cs ++ '\n' :: r from rfl, hrec]

/-- A newline-free chunk splits into the single line it is. -/
theorem splitNl_no_newline {l : List Char} (hl : '\n' ∉ l) :
    splitNl l = [l] := by
  induction l with
  | nil => rfl
  | cons c cs ih =>
    have hc : c ≠ '\n' := fun h => hl (h ▸ List.mem_cons_self c cs)
    have hrec := ih fun h => hl (List.mem_cons_of_mem c h)
    simp only [splitNl, hc, if_neg, not_false_iff]
    rw [hrec]

/-- Parsing a joined output processes the lines one by one, in order. -/
theorem parseLines_joinNl (lines : List (List Char))
    (h : ∀ l ∈ lines, '\n' ∉ l) :
    parseLines (joinNl lines) = lines.filterMap lineMapping := by
  induction lines with
  | nil => simp [joinNl, parseLines, splitNl, lineMapping]
  | cons l rest ih =>
    cases rest with
    | nil =>
      have hl : '\n' ∉ l := h l (List.mem_cons_self l [])
      simp [joinNl, parseLines, splitNl_no_newline hl]
    | cons l2 rest2 =>
      have hl : '\n' ∉ l := h l (List.mem_cons_self l _)
      have hrest := ih fun x hx => h x (List.mem_cons_of_mem l hx)
      unfold parseLines at hrest ⊢
      rw [show joinNl (l :: l2 :: rest2) = l ++ '\n' :: joinNl (l2 :: rest2) from rfl]
      rw [splitNl_append_cons hl, List.filterMap_cons, List.filterMap_cons, hrest]

/-! ### Lemmas: the ports object, the selector, and the effect trace -/

theorem objSet_of_forall_ne (tbl : PortTable) (k : String) (v : List PortMapping)
    (h : ∀ p ∈ tbl, p.1 ≠ k) : objSet tbl k v = tbl ++ [(k, v)] := by
  unfold objSet
  rw [if_neg]
  intro hc
  rcases List.any_eq_true.mp hc with ⟨p, hp, hpk⟩
  exact h p hp (by simpa using hpk)

theorem foldl_objSet_value (env : Env) (ns : List String) (acc : PortTable)
    (hacc : ∀ p ∈ acc, p.2 = parsePortOutput (env.portQueryOutput p.1)) :
    ∀ p ∈ ns.foldl
        (fun tbl s => objSet tbl s (parsePortOutput (env.portQueryOutput s))) acc,
      p.2 = parsePortOutput (env.portQueryOutput p.1) := by
  induction ns generalizing acc with
  | nil => simpa using hacc
  | cons s rest ih =>
    intro p hp
    rw [List.foldl_cons] at hp
    refine ih _ ?_ p hp
    intro q hq
    unfold objSet at hq
    split at hq
    · rcases List.mem_map.mp hq with ⟨r, hr, hrq⟩
      by_cases hrk : r.1 == s
      · rw [if_pos hrk] at hrq
        rw [← hrq]
      · rw [if_neg hrk] at hrq
        rw [← hrq]
        exact hacc r hr
    · rcases List.mem_append.mp hq with hq1 | hq1
      · exact hacc q hq1
      · rcases List.mem_singleton.mp hq1 with rfl
        rfl

theorem buildPorts_value {env : Env} {ns : List String} {p : String × List PortMapping}
    (h : p ∈ buildPorts env ns) : p.2 = parsePortOutput (env.portQueryOutput p.1) :=
  foldl_objSet_value env ns [] (by simp) p h

theorem foldl_objSet_eq (env : Env) (ns : List String) (acc : PortTable)
    (hnd : ns.Nodup) (hdisj : ∀ s ∈ ns, ∀ p ∈ acc, p.1 ≠ s) :
    ns.foldl (fun tbl s => objSet tbl s (parsePortOutput (env.portQueryOutput s))) acc =
      acc ++ ns.map fun s => (s, parsePortOutput (env.portQueryOutput s)) := by
  induction ns generalizing acc with
  | nil => simp
  | cons s rest ih =>
    have hobj : objSet acc s (parsePortOutput (env.portQueryOutput s)) =
        acc ++ [(s, parsePortOutput (env.portQueryOutput s))] :=
      objSet_of_forall_ne acc s _ fun p hp => hdisj s (List.mem_cons_self s rest) p hp
    rw [List.foldl_cons, hobj,
      ih _ (List.nodup_cons.mp hnd).2 ?_]
    · simp
    · intro t ht p hp
      rcases List.mem_append.mp hp with hp1 | hp1
      · exact hdisj t (List.mem_cons_of_mem s ht) p hp1
      · rcases List.mem_singleton.mp hp1 with rfl
        intro hst
        exact (List.nodup_cons.mp hnd).1 (by rw [show s = t from hst]; exact ht)

theorem buildPorts_eq_map {env : Env} {ns : List String} (hnd : ns.Nodup) :
    buildPorts env ns = ns.map fun s => (s, parsePortOutput (env.portQueryOutput s)) := by
  unfold buildPorts
  rw [foldl_objSet_eq env ns [] hnd (by simp)]
  exact List.nil_append _

theorem buildPorts_keys {env : Env} {ns : List String} (hnd : ns.Nodup) :
    (buildPorts env ns).map Prod.fst = ns := by
  rw [buildPorts_eq_map hnd, List.map_map]
  have hcomp : (Prod.fst ∘ fun s => (s, parsePortOutput (env.portQueryOutput s))) =
      (id : String → String) := rfl
  rw [hcomp, List.map_id]

theorem selectWebUrl_eq_specWebUrl (tbl : PortTable) :
    selectWebUrl tbl = specWebUrl tbl := by
  induction tbl with
  | nil => rfl
  | cons p rest ih =>
    rcases p with ⟨s, ms⟩
    cases ms with
    | nil => simpa [selectWebUrl, specWebUrl, List.find?] using ih
    | cons m ms2 => simp [selectWebUrl, specWebUrl, List.find?]

theorem selectWebUrl_cases (tbl : PortTable) :
    selectWebUrl tbl = "" ∨
      ∃ p ∈ tbl, ∃ m ∈ p.2, selectWebUrl tbl = "http://localhost:" ++ m.hostPort := by
  induction tbl with
  | nil => exact Or.inl rfl
  | cons p rest ih =>
    rcases p with ⟨s, ms⟩
    cases ms with
    | nil =>
      rcases ih with h | ⟨q, hq, m, hm, hurl⟩
      · left
        simpa [selectWebUrl] using h
      · right
        exact ⟨q, List.mem_cons_of_mem _ hq, m, hm, by simpa [selectWebUrl] using hurl⟩
    | cons m ms2 =>
      right
      exact ⟨(s, m :: ms2), List.mem_cons_self _ _, m, List.mem_cons_self _ _,
        by simp [selectWebUrl]⟩

theorem parsePortOutput_digits {out : String} {m : PortMapping}
    (h : m ∈ parsePortOutput out) :
    DigitString m.containerPort ∧ DigitString m.hostPort := by
  unfold parsePortOutput parseLines at h
  rcases List.mem_filterMap.mp h with ⟨line, _, hl⟩
  unfold lineMapping at hl
  split at hl
  · exact absurd hl (by simp)
  · rcases ho : matchPortLine line with _ | ⟨pa, pb⟩
    · rw [ho] at hl
      exact absurd hl (by simp)
    · rw [ho] at hl
      simp only [Option.map_some', Option.some.injEq] at hl
      obtain ⟨⟨h1, h2⟩, ⟨h3, h4⟩, _⟩ := matchPortLine_sound ho
      rw [← hl]
      exact ⟨⟨by simpa using h1, by simpa using h2⟩, ⟨by simpa using h3, by simpa using h4⟩⟩

theorem removalEvent_logEffect (ll : LogLine) : removalEvent (logEffect ll) = none := by
  rcases ll with ⟨sev, m⟩
  cases sev <;> rfl

theorem filterMap_removalEvent_rmChunk (env : Env) (s : String) :
    (rmChunkTrace env s).filterMap removalEvent = [] := by
  unfold rmChunkTrace
  rw [List.filterMap_append, List.filterMap_map, List.filterMap_map]
  simp [Function.comp, removalEvent]

theorem filterMap_removalEvent_removeTrace (env : Env) (ns : List String) :
    (removeTrace env ns).filterMap removalEvent = removalSchedule ns := by
  induction ns with
  | nil => rfl
  | cons s rest ih =>
    show (removeStepTrace env s ++ removeTrace env rest).filterMap removalEvent = _
    rw [List.filterMap_append, ih]
    unfold removeStepTrace
    rw [List.filterMap_append, List.filterMap_cons, filterMap_removalEvent_rmChunk]
    simp [removalEvent, removalSchedule]

theorem filterMap_removalEvent_parse (env : Env) :
    ((parseStep env).1).filterMap removalEvent = [] := by
  unfold parseStep
  cases env.parseOutcome <;> simp [removalEvent]

theorem filterMap_removalEvent_upChunk (env : Env) :
    (upChunkTrace env).filterMap removalEvent = [] := by
  unfold upChunkTrace
  rw [List.filterMap_append, List.filterMap_map, List.filterMap_map]
  simp [Function.comp, removalEvent_logEffect]

theorem filterMap_removalEvent_preUp (env : Env) :
    (preUpTrace env).filterMap removalEvent = removalSchedule (serviceNamesOf env) := by
  unfold preUpTrace
  rw [List.filterMap_append, List.filterMap_append, List.filterMap_append,
    List.filterMap_cons]
  rw [filterMap_removalEvent_parse, filterMap_removalEvent_removeTrace,
    filterMap_removalEvent_upChunk]
  simp [removalEvent]

theorem filterMap_removalEvent_discovery (env : Env) (ns : List String) :
    (discoveryTrace env ns).filterMap removalEvent = [] := by
  induction ns with
  | nil => rfl
  | cons s rest ih =>
    show (portQueryTrace env s ++ discoveryTrace env rest).filterMap removalEvent = _
    rw [List.filterMap_append, ih]
    unfold portQueryTrace
    rw [List.filterMap_cons, List.filterMap_map]
    simp [Function.comp, removalEvent]

/-- Removal activity of any run that passes the existence guard: exactly one
removal spawn per declared service, in manifest order, each resolved before
the next spawn, independent of every exit status. -/
theorem trace_removalEvents (env : Env) (hex : env.composeFileExists = true) :
    (runHandler env).trace.filterMap removalEvent =
      removalSchedule (serviceNamesOf env) := by
  unfold runHandler
  rw [hex]
  by_cases hup : env.upExitCode = 0
  · rw [if_pos rfl, if_pos hup]
    simp only [List.filterMap_append, filterMap_removalEvent_preUp,
      filterMap_removalEvent_discovery]
    simp [removalEvent]
  · rw [if_pos rfl, if_neg hup]
    simp only [List.filterMap_append, filterMap_removalEvent_preUp]
    simp [removalEvent]

theorem runHandler_noFile (env : Env) (hex : env.composeFileExists = false) :
    runHandler env =
      ⟨[Effect.logInfo ("Compose file: " ++ env.composePath)],
       .error ("Compose file not found: " ++ env.composePath)⟩ := by
  unfold runHandler
  rw [hex]
  rfl

theorem runHandler_upFail (env : Env) (hex : env.composeFileExists = true)
    (hup : env.upExitCode ≠ 0) :
    runHandler env =
      ⟨preUpTrace env ++ [Effect.logError (upFailMsg env)],
       .error (upFailMsg env)⟩ := by
  unfold runHandler
  rw [hex]
  rw [if_pos rfl, if_neg hup]

theorem runHandler_ok (env : Env) (hex : env.composeFileExists = true)
    (hup : env.upExitCode = 0) :
    runHandler env =
      ⟨preUpTrace env ++
        [Effect.logInfo "Docker Compose executed successfully."] ++
        discoveryTrace env (serviceNamesOf env) ++
        [Effect.logInfoExposedPorts (buildPorts env (serviceNamesOf env)),
         Effect.outputPorts (buildPorts env (serviceNamesOf env)),
         Effect.logInfo ("Web URL detected: " ++
           selectWebUrl (buildPorts env (serviceNamesOf env))),
         Effect.outputWebUrl (selectWebUrl (buildPorts env (serviceNamesOf env)))],
       .ok ⟨selectWebUrl (buildPorts env (serviceNamesOf env)),
            buildPorts env (serviceNamesOf env)⟩⟩ := by
  unfold runHandler
  rw [hex]
  rw [if_pos rfl, if_pos hup]

theorem logEffect_isLog (ll : LogLine) : (logEffect ll).isLog = true := by
  rcases ll with ⟨sev, m⟩
  cases sev <;> rfl

theorem mem_rmChunkTrace_isLog {env : Env} {s : String} {e : Effect}
    (h : e ∈ rmChunkTrace env s) : e.isLog = true := by
  unfold rmChunkTrace at h
  rcases List.mem_append.mp h with h1 | h1 <;>
    rcases List.mem_map.mp h1 with ⟨c, _, rfl⟩ <;> rfl

theorem mem_upChunkTrace_isLog {env : Env} {e : Effect}
    (h : e ∈ upChunkTrace env) : e.isLog = true := by
  unfold upChunkTrace at h
  rcases List.mem_append.mp h with h1 | h1 <;>
    rcases List.mem_map.mp h1 with ⟨c, _, rfl⟩ <;> exact logEffect_isLog _

theorem mem_parseTrace {env : Env} {e : Effect} (h : e ∈ (parseStep env).1) :
    e = Effect.parseManifest ∨ e.isLog = true := by
  cases hp : env.parseOutcome <;> simp [parseStep, hp] at h
  · rcases h with rfl | rfl
    · exact Or.inl rfl
    · exact Or.inr rfl
  · exact Or.inl h
  · rcases h with rfl | rfl
    · exact Or.inl rfl
    · exact Or.inr rfl

theorem mem_removeTrace_shape {env : Env} {ns : List String} {e : Effect}
    (h : e ∈ removeTrace env ns) :
    (∃ s ∈ ns, e = Effect.spawnRemove s ∨ e = Effect.removeResolved s) ∨
      e.isLog = true := by
  induction ns with
  | nil => exact absurd h (List.not_mem_nil e)
  | cons s rest ih =>
    rcases List.mem_append.mp h with h1 | h1
    · unfold removeStepTrace at h1
      rcases List.mem_append.mp h1 with h2 | h2
      · rcases List.mem_cons.mp h2 with rfl | h3
        · exact Or.inl ⟨s, List.mem_cons_self s rest, Or.inl rfl⟩
        · exact Or.inr (mem_rmChunkTrace_isLog h3)
      · simp only [List.mem_cons, List.mem_singleton] at h2
        rcases h2 with rfl | rfl | h3
        · exact Or.inr rfl
        · exact Or.inl ⟨s, List.mem_cons_self s rest, Or.inr rfl⟩
        · exact absurd h3 (List.not_mem_nil e)
    · rcases ih h1 with ⟨t, ht, he⟩ | hl
      · exact Or.inl ⟨t, List.mem_cons_of_mem s ht, he⟩
      · exact Or.inr hl

theorem mem_discoveryTrace_shape {env : Env} {ns : List String} {e : Effect}
    (h : e ∈ discoveryTrace env ns) :
    (∃ s ∈ ns, e = Effect.spawnPortQuery s) ∨ e.isLog = true := by
  induction ns with
  | nil => exact absurd h (List.not_mem_nil e)
  | cons s rest ih =>
    rcases List.mem_append.mp h with h1 | h1
    · unfold portQueryTrace at h1
      rcases List.mem_cons.mp h1 with rfl | h2
      · exact Or.inl ⟨s, List.mem_cons_self s rest, rfl⟩
      · rcases List.mem_map.mp h2 with ⟨c, _, rfl⟩
        exact Or.inr rfl
    · rcases ih h1 with ⟨t, ht, he⟩ | hl
      · exact Or.inl ⟨t, List.mem_cons_of_mem s ht, he⟩
      · exact Or.inr hl

theorem mem_preUpTrace_shape {env : Env} {e : Effect} (h : e ∈ preUpTrace env) :
    (∃ s ∈ serviceNamesOf env,
        e = Effect.spawnRemove s ∨ e = Effect.removeResolved s) ∨
      e = Effect.parseManifest ∨ e = Effect.spawnUp ∨ e.isLog = true := by
  unfold preUpTrace at h
  rcases List.mem_append.mp h with h1 | h1
  · rcases List.mem_append.mp h1 with h2 | h2
    · rcases List.mem_append.mp h2 with h3 | h3
      · rcases List.mem_cons.mp h3 with rfl | h4
        · exact Or.inr (Or.inr (Or.inr rfl))
        · rcases mem_parseTrace h4 with rfl | hl
          · exact Or.inr (Or.inl rfl)
          · exact Or.inr (Or.inr (Or.inr hl))
      · rcases mem_removeTrace_shape h3 with hr | hl
        · exact Or.inl hr
        · exact Or.inr (Or.inr (Or.inr hl))
    · simp only [List.mem_cons, List.mem_singleton] at h2
      rcases h2 with rfl | rfl | h3
      · exact Or.inr (Or.inr (Or.inr rfl))
      · exact Or.inr (Or.inr (Or.inl rfl))
      · exact absurd h3 (List.not_mem_nil e)
  · exact Or.inr (Or.inr (Or.inr (mem_upChunkTrace_isLog h1)))

theorem spawnUp_mem_preUpTrace (env : Env) : Effect.spawnUp ∈ preUpTrace env := by
  unfold preUpTrace
  simp

theorem parseWarn_mem_preUpTrace {env : Env} {err : String}
    (hp : env.parseOutcome = .parseFailed err) :
    Effect.logWarn ("Failed to parse compose file: " ++ err) ∈ preUpTrace env := by
  unfold preUpTrace parseStep
  rw [hp]
  simp

theorem preUp_subset_trace (env : Env) (hex : env.composeFileExists = true) :
    ∀ e ∈ preUpTrace env, e ∈ (runHandler env).trace := by
  intro e he
  by_cases hup : env.upExitCode = 0
  · rw [runHandler_ok env hex hup]
    exact List.mem_append_left _ (List.mem_append_left _ (List.mem_append_left _ he))
  · rw [runHandler_upFail env hex hup]
    exact List.mem_append_left _ he

theorem mem_trace_shape {env : Env} {e : Effect} (hex : env.composeFileExists = true)
    (h : e ∈ (runHandler env).trace) :
    (∃ s ∈ serviceNamesOf env,
        e = Effect.spawnRemove s ∨ e = Effect.removeResolved s) ∨
      (∃ s ∈ serviceNamesOf env, e = Effect.spawnPortQuery s) ∨
      e = Effect.parseManifest ∨ e = Effect.spawnUp ∨ e.isLog = true ∨
      (∃ tbl, e = Effect.outputPorts tbl) ∨ (∃ u, e = Effect.outputWebUrl u) := by
  by_cases hup : env.upExitCode = 0
  · rw [runHandler_ok env hex hup] at h
    rcases List.mem_append.mp h with h1 | h1
    · rcases List.mem_append.mp h1 with h2 | h2
      · rcases List.mem_append.mp h2 with h3 | h3
        · rcases mem_preUpTrace_shape h3 with hr | rfl | rfl | hl
          · exact Or.inl hr
          · exact Or.inr (Or.inr (Or.inl rfl))
          · exact Or.inr (Or.inr (Or.inr (Or.inl rfl)))
          · exact Or.inr (Or.inr (Or.inr (Or.inr (Or.inl hl))))
        · rcases List.mem_singleton.mp h3 with rfl
          exact Or.inr (Or.inr (Or.inr (Or.inr (Or.inl rfl))))
      · rcases mem_discoveryTrace_shape h2 with hr | hl
        · exact Or.inr (Or.inl hr)
        · exact Or.inr (Or.inr (Or.inr (Or.inr (Or.inl hl))))
    · simp only [List.mem_cons, List.mem_singleton] at h1
      rcases h1 with rfl | rfl | rfl | rfl | h2
      · exact Or.inr (Or.inr (Or.inr (Or.inr (Or.inl rfl))))
      · exact Or.inr (Or.inr (Or.inr (Or.inr (Or.inr (Or.inl ⟨_, rfl⟩)))))
      · exact Or.inr (Or.inr (Or.inr (Or.inr (Or.inl rfl))))
      · exact Or.inr (Or.inr (Or.inr (Or.inr (Or.inr (Or.inr ⟨_, rfl⟩)))))
      · exact absurd h2 (List.not_mem_nil e)
  · rw [runHandler_upFail env hex hup] at h
    rcases List.mem_append.mp h with h1 | h1
    · rcases mem_preUpTrace_shape h1 with hr | rfl | rfl | hl
      · exact Or.inl hr
      · exact Or.inr (Or.inr (Or.inl rfl))
      · exact Or.inr (Or.inr (Or.inr (Or.inl rfl)))
      · exact Or.inr (Or.inr (Or.inr (Or.inr (Or.inl hl))))
    · rcases List.mem_singleton.mp h1 with rfl
      exact Or.inr (Or.inr (Or.inr (Or.inr (Or.inl rfl))))

/-! ### The claims -/

/-- C1: if `docker compose up -d --build` completes with a non-zero exit
code, the handler rejects with an error whose message carries that exit
code, port discovery is never invoked (no port-query spawn, no ports or
webUrl output), and no `OrchestrationResult` is produced. -/
theorem buildStart_failure_aborts (env : Env)
    (hex : env.composeFileExists = true) (hup : env.upExitCode ≠ 0) :
    (runHandler env).result =
      .error ("docker compose up exited with code " ++ toString env.upExitCode) ∧
    (∀ s, Effect.spawnPortQuery s ∉ (runHandler env).trace) ∧
    (∀ tbl, Effect.outputPorts tbl ∉ (runHandler env).trace) ∧
    (∀ u, Effect.outputWebUrl u ∉ (runHandler env).trace) ∧
    ∀ r, (runHandler env).result ≠ .ok r := by
  rw [runHandler_upFail env hex hup]
  refine ⟨rfl, ?_, ?_, ?_, ?_⟩
  · intro s hs
    rcases List.mem_append.mp hs with h1 | h1
    · rcases mem_preUpTrace_shape h1 with ⟨t, _, h2 | h2⟩ | h2 | h2 | h2 <;>
        simp [Effect.isLog] at h2
    · simp at h1
  · intro tbl hs
    rcases List.mem_append.mp hs with h1 | h1
    · rcases mem_preUpTrace_shape h1 with ⟨t, _, h2 | h2⟩ | h2 | h2 | h2 <;>
        simp [Effect.isLog] at h2
    · simp at h1
  · intro u hs
    rcases List.mem_append.mp hs with h1 | h1
    · rcases mem_preUpTrace_shape h1 with ⟨t, _, h2 | h2⟩ | h2 | h2 | h2 <;>
        simp [Effect.isLog] at h2
    · simp at h1
  · intro r hr
    exact Except.noConfusion hr

theorem buildStart_failure_aborts_witness :
    (runHandler envC).result =
      .error ("docker compose up exited with code " ++ toString envC.upExitCode) ∧
    (∀ s, Effect.spawnPortQuery s ∉ (runHandler envC).trace) ∧
    (∀ tbl, Effect.outputPorts tbl ∉ (runHandler envC).trace) ∧
    (∀ u, Effect.outputWebUrl u ∉ (runHandler envC).trace) ∧
    ∀ r, (runHandler envC).result ≠ .ok r :=
  buildStart_failure_aborts envC rfl (by decide)

/-- C2: on every successful run the port table's keys are the manifest's
services in declaration order and the selected `webUrl` is exactly the
spec's first-non-empty-service selection (empty when no service has a
mapping, never scanning beyond the first hit). -/
theorem webUrl_first_service (env : Env) (hex : env.composeFileExists = true)
    (hup : env.upExitCode = 0) (hnd : (serviceNamesOf env).Nodup) :
    ∃ r, (runHandler env).result = .ok r ∧
      r.ports.map Prod.fst = serviceNamesOf env ∧
      r.webUrl = specWebUrl r.ports := by
  rw [runHandler_ok env hex hup]
  exact ⟨⟨selectWebUrl (buildPorts env (serviceNamesOf env)),
          buildPorts env (serviceNamesOf env)⟩, rfl,
    buildPorts_keys hnd, selectWebUrl_eq_specWebUrl _⟩

theorem webUrl_first_service_witness :
    ∃ r, (runHandler envA).result = .ok r ∧
      r.ports.map Prod.fst = serviceNamesOf envA ∧
      r.webUrl = specWebUrl r.ports :=
  webUrl_first_service envA rfl rfl (by decide)

/-- C3: a runtime port-query line yields exactly one mapping, equal to the
two captured digit groups, iff it matches `^(\d+)\/tcp -> [^:]+:(\d+)$`;
every other line yields no mapping and no error, and over a whole output
the accepted mappings appear in the order the lines occurred. -/
theorem portLine_parse_iff :
    (∀ line cp hp, lineMapping line = some ⟨String.mk cp, String.mk hp⟩ ↔
        PortLineSpec line cp hp) ∧
    ∀ lines : List (List Char), (∀ l ∈ lines, '\n' ∉ l) →
      parseLines (joinNl lines) = lines.filterMap lineMapping :=
  ⟨fun _ _ _ => lineMapping_eq_some_iff, parseLines_joinNl⟩

theorem portLine_parse_iff_witness :
    parseLines (joinNl ["80/tcp -> 0.0.0.0:32768".data,
        "53/udp -> 0.0.0.0:53".data, "".data]) =
      ["80/tcp -> 0.0.0.0:32768".data, "53/udp -> 0.0.0.0:53".data,
        "".data].filterMap lineMapping ∧
    PortLineSpec "80/tcp -> 0.0.0.0:32768".data "80".data "32768".data :=
  ⟨portLine_parse_iff.2 _ (by decide),
   (portLine_parse_iff.1 _ _ _).mp (by decide)⟩

/-- C4: when the resolved manifest path does not exist, the handler throws
`Compose file not found` before any side effect: the trace holds only the
initial path log, with no parse attempt, no removal spawn, no build/start
spawn, and no port query. -/
theorem missing_manifest_aborts (env : Env) (hex : env.composeFileExists = false) :
    (runHandler env).result =
      .error ("Compose file not found: " ++ env.composePath) ∧
    (runHandler env).trace = [Effect.logInfo ("Compose file: " ++ env.composePath)] ∧
    Effect.parseManifest ∉ (runHandler env).trace ∧
    (∀ s, Effect.spawnRemove s ∉ (runHandler env).trace) ∧
    Effect.spawnUp ∉ (runHandler env).trace ∧
    ∀ s, Effect.spawnPortQuery s ∉ (runHandler env).trace := by
  rw [runHandler_noFile env hex]
  exact ⟨rfl, rfl, by simp, fun s => by simp, by simp, fun s => by simp⟩

theorem missing_manifest_aborts_witness :
    (runHandler envB).result =
      .error ("Compose file not found: " ++ envB.composePath) ∧
    (runHandler envB).trace = [Effect.logInfo ("Compose file: " ++ envB.composePath)] ∧
    Effect.parseManifest ∉ (runHandler envB).trace ∧
    (∀ s, Effect.spawnRemove s ∉ (runHandler envB).trace) ∧
    Effect.spawnUp ∉ (runHandler envB).trace ∧
    ∀ s, Effect.spawnPortQuery s ∉ (runHandler envB).trace :=
  missing_manifest_aborts envB rfl

/-- C5: when the manifest exists but yields no services (parse failure or
empty declaration), no error propagates from parsing: the failure is logged
as a warning, no per-service removal or port-query work happens, build and
start still run, and on success the result is the empty table with an empty
`webUrl`. -/
theorem empty_services_degrade (env : Env) (hex : env.composeFileExists = true)
    (hempty : serviceNamesOf env = []) :
    (∀ s, Effect.spawnRemove s ∉ (runHandler env).trace) ∧
    (∀ s, Effect.spawnPortQuery s ∉ (runHandler env).trace) ∧
    Effect.spawnUp ∈ (runHandler env).trace ∧
    (∀ err, env.parseOutcome = .parseFailed err →
      Effect.logWarn ("Failed to parse compose file: " ++ err) ∈
        (runHandler env).trace) ∧
    (env.upExitCode = 0 → (runHandler env).result = .ok ⟨"", []⟩) := by
  refine ⟨?_, ?_, ?_, ?_, ?_⟩
  · intro s hs
    rcases mem_trace_shape hex hs with ⟨t, ht, h2 | h2⟩ | ⟨t, ht, h2⟩ |
        h2 | h2 | h2 | ⟨tbl, h2⟩ | ⟨u, h2⟩ <;>
      first
      | (rw [hempty] at ht; exact absurd ht (List.not_mem_nil t))
      | simp [Effect.isLog] at h2
  · intro s hs
    rcases mem_trace_shape hex hs with ⟨t, ht, h2 | h2⟩ | ⟨t, ht, h2⟩ |
        h2 | h2 | h2 | ⟨tbl, h2⟩ | ⟨u, h2⟩ <;>
      first
      | (rw [hempty] at ht; exact absurd ht (List.not_mem_nil t))
      | simp [Effect.isLog] at h2
  · exact preUp_subset_trace env hex _ (spawnUp_mem_preUpTrace env)
  · intro err hp
    exact preUp_subset_trace env hex _ (parseWarn_mem_preUpTrace hp)
  · intro hup
    rw [runHandler_ok env hex hup, hempty]
    rfl

theorem empty_services_degrade_witness :
    (∀ s, Effect.spawnRemove s ∉ (runHandler envD).trace) ∧
    (∀ s, Effect.spawnPortQuery s ∉ (runHandler envD).trace) ∧
    Effect.spawnUp ∈ (runHandler envD).trace ∧
    (∀ err, envD.parseOutcome = .parseFailed err →
      Effect.logWarn ("Failed to parse compose file: " ++ err) ∈
        (runHandler envD).trace) ∧
    (envD.upExitCode = 0 → (runHandler envD).result = .ok ⟨"", []⟩) :=
  empty_services_degrade envD rfl rfl

/-- C6: for every manifest with N declared services the run's removal
activity is exactly one removal spawn per service, sequentially in manifest
declaration order, each awaited to completion before the next begins,
regardless of whether matching containers exist. -/
theorem reclaimer_schedule (env : Env) (hex : env.composeFileExists = true) :
    (runHandler env).trace.filterMap removalEvent =
      removalSchedule (serviceNamesOf env) :=
  trace_removalEvents env hex

theorem reclaimer_schedule_witness :
    (runHandler envA).trace.filterMap removalEvent =
      removalSchedule (serviceNamesOf envA) :=
  reclaimer_schedule envA rfl

theorem removeTrace_rmCode (env : Env) (f : String → Nat) (ns : List String) :
    removeTrace { env with rmExitCode := f } ns = removeTrace env ns := by
  induction ns with
  | nil => rfl
  | cons s rest ih =>
    show removeStepTrace _ s ++ _ = removeStepTrace _ s ++ _
    rw [ih]
    rfl

theorem discoveryTrace_rmCode (env : Env) (f : String → Nat) (ns : List String) :
    discoveryTrace { env with rmExitCode := f } ns = discoveryTrace env ns := by
  induction ns with
  | nil => rfl
  | cons s rest ih =>
    show portQueryTrace _ s ++ _ = portQueryTrace _ s ++ _
    rw [ih]
    rfl

theorem runHandler_rmCode (env : Env) (f : String → Nat) :
    runHandler { env with rmExitCode := f } = runHandler env := by
  have hsn : serviceNamesOf { env with rmExitCode := f } = serviceNamesOf env := rfl
  have h1 : preUpTrace { env with rmExitCode := f } = preUpTrace env := by
    unfold preUpTrace
    rw [hsn, removeTrace_rmCode]
    rfl
  unfold runHandler
  rw [hsn, h1, discoveryTrace_rmCode]
  rfl

/-- C7: every removal invocation completes without error whatever its exit
status: the exit status is never inspected (the run is unchanged under any
reassignment of removal exit codes), every spawned removal resolves, and
the orchestration proceeds to the build/start stage. -/
theorem cleanup_always_succeeds (env : Env) (f : String → Nat)
    (hex : env.composeFileExists = true) :
    runHandler { env with rmExitCode := f } = runHandler env ∧
    (runHandler env).trace.filterMap removalEvent =
      removalSchedule (serviceNamesOf env) ∧
    Effect.spawnUp ∈ (runHandler env).trace :=
  ⟨runHandler_rmCode env f, trace_removalEvents env hex,
    preUp_subset_trace env hex _ (spawnUp_mem_preUpTrace env)⟩

theorem cleanup_always_succeeds_witness :
    runHandler { envA with rmExitCode := fun _ => 7 } = runHandler envA ∧
    (runHandler envA).trace.filterMap removalEvent =
      removalSchedule (serviceNamesOf envA) ∧
    Effect.spawnUp ∈ (runHandler envA).trace :=
  cleanup_always_succeeds envA (fun _ => 7) rfl

/-- C8: evaluation of the stderr/stdout line classifiers at concrete
inputs.  Token lines (`Creating`, `Created`, `level=warning`) go to warning
severity in both source variants and stdout lines go to informational
severity; but a non-token stderr line is logged at WARNING severity by the
first variant (`logger.warn` with a `DOCKER ERR:` prefix) and at error
severity only by the second variant — the first variant contradicts the
documented error-level classification. -/
theorem stderr_classifier_eval :
    classifyUpStderrV1 "no configuration file provided" =
      ⟨Severity.warn, "DOCKER ERR: no configuration file provided"⟩ ∧
    classifyUpStderrV2 "no configuration file provided" =
      ⟨Severity.error, "DOCKER ERR: no configuration file provided"⟩ ∧
    classifyUpStderrV1 "Creating network app_default" =
      ⟨Severity.warn, "DOCKER WARN: Creating network app_default"⟩ ∧
    classifyUpStdout "Container app-web-1  Started" =
      ⟨Severity.info, "DOCKER OUT: Container app-web-1  Started"⟩ := by
  refine ⟨?_, ?_, ?_, rfl⟩ <;> decide

/-- C9: on every completed run the key list of the resulting port table is
exactly the extracted service-name list: every extracted service has an
entry and no undeclared service does. -/
theorem portTable_keys (env : Env) (hex : env.composeFileExists = true)
    (hup : env.upExitCode = 0) (hnd : (serviceNamesOf env).Nodup) :
    ∃ r, (runHandler env).result = .ok r ∧
      r.ports.map Prod.fst = serviceNamesOf env := by
  rw [runHandler_ok env hex hup]
  exact ⟨⟨selectWebUrl (buildPorts env (serviceNamesOf env)),
          buildPorts env (serviceNamesOf env)⟩, rfl, buildPorts_keys hnd⟩

theorem portTable_keys_witness :
    ∃ r, (runHandler envA).result = .ok r ∧
      r.ports.map Prod.fst = serviceNamesOf envA :=
  portTable_keys envA rfl rfl (by decide)

/-- C10: on every completed run, every stored mapping has non-empty
all-digit `containerPort` and `hostPort`; a non-empty `webUrl` is
`http://localhost:` followed by the host port of some stored mapping; and
the returned result and the emitted outputs carry the same ports table and
`webUrl` string. -/
theorem result_invariants (env : Env) (hex : env.composeFileExists = true)
    (hup : env.upExitCode = 0) :
    ∃ r, (runHandler env).result = .ok r ∧
      (∀ p ∈ r.ports, ∀ m ∈ p.2,
        DigitString m.containerPort ∧ DigitString m.hostPort) ∧
      (r.webUrl = "" ∨ ∃ p ∈ r.ports, ∃ m ∈ p.2,
        r.webUrl = "http://localhost:" ++ m.hostPort) ∧
      Effect.outputPorts r.ports ∈ (runHandler env).trace ∧
      Effect.outputWebUrl r.webUrl ∈ (runHandler env).trace := by
  rw [runHandler_ok env hex hup]
  refine ⟨⟨selectWebUrl (buildPorts env (serviceNamesOf env)),
          buildPorts env (serviceNamesOf env)⟩, rfl, ?_, ?_, ?_, ?_⟩
  · intro p hp m hm
    exact parsePortOutput_digits (buildPorts_value hp ▸ hm)
  · exact selectWebUrl_cases _
  · simp
  · simp

theorem result_invariants_witness :
    ∃ r, (runHandler envA).result = .ok r ∧
      (∀ p ∈ r.ports, ∀ m ∈ p.2,
        DigitString m.containerPort ∧ DigitString m.hostPort) ∧
      (r.webUrl = "" ∨ ∃ p ∈ r.ports, ∃ m ∈ p.2,
        r.webUrl = "http://localhost:" ++ m.hostPort) ∧
      Effect.outputPorts r.ports ∈ (runHandler envA).trace ∧
      Effect.outputWebUrl r.webUrl ∈ (runHandler envA).trace :=
  result_invariants envA rfl rfl

end DockerCompose
